import Mathlib

/-!
Verification of the vmcnet core: the Metropolis-Hastings step engine
(`vmcnet/mcmc/metropolis.py`) and the local-energy / energy-gradient
estimator (`vmcnet/physics/energy.py`), shallowly embedded in Lean 4.

Floating-point arrays are modelled as lists over exact scalars: `ℝ` where
the code takes `exp` (acceptance ratios), `ℚ` where the code is purely
rational (energy/variance aggregation, the custom JVP, and the Laplacian
scan).  The one place where IEEE non-finite values matter — the division
by `nchains - 1` in the variance estimator — is modelled explicitly by
the `FReal` type, which collapses every non-finite outcome into `FReal.nan`.
-/

namespace Vmcnet

/-- Arithmetic mean of a list, `jnp.mean`: sum divided by length (with the
Lean convention `x / 0 = 0` for the empty list, which no claim exercises). -/
def list_mean {α : Type} [DivisionRing α] (l : List α) : α :=
  l.sum / (l.length : α)

/-- Dot product of two lists, `jnp.dot` on 1-d arrays (extra trailing
entries of either argument are ignored, as lengths always agree in use). -/
def list_dot {α : Type} [Ring α] (a b : List α) : α :=
  (List.zipWith (· * ·) a b).sum

/-! ### `vmcnet/mcmc/metropolis.py`: symmetric Metropolis acceptance -/

/-- Embedding of `metropolis_symmetric_acceptance` on one pair of entries
(the jnp version maps this elementwise over the amplitude arrays).

```python
if not logabs:
    prob_old = jnp.square(amplitude)
    prob_new = jnp.square(proposed_amplitude)
    ratio = prob_new / prob_old
    ratio = jnp.where(jnp.logical_or(prob_old < prob_new, prob_old == 0.0),
                      jnp.ones_like(ratio), ratio)
    return ratio
log_prob_old = 2.0 * amplitude
log_prob_new = 2.0 * proposed_amplitude
return jnp.where(log_prob_new > log_prob_old, jnp.ones_like(log_prob_new),
                 jnp.exp(log_prob_new - log_prob_old))
``` -/
noncomputable def metropolis_symmetric_acceptance
    (amplitude proposed_amplitude : ℝ) (logabs : Bool) : ℝ :=
  if logabs = false then
    let prob_old := amplitude ^ 2
    let prob_new := proposed_amplitude ^ 2
    let ratio := prob_new / prob_old
    if prob_old < prob_new ∨ prob_old = 0 then 1 else ratio
  else
    let log_prob_old := 2 * amplitude
    let log_prob_new := 2 * proposed_amplitude
    if log_prob_new > log_prob_old then 1
    else Real.exp (log_prob_new - log_prob_old)

/-- The elementwise action of `metropolis_symmetric_acceptance` on the
one-dimensional amplitude arrays (all jnp operations involved —
`square`, `/`, `where`, comparisons, `exp` — act entrywise). -/
noncomputable def metropolis_symmetric_acceptance_vec
    (amplitude proposed_amplitude : List ℝ) (logabs : Bool) : List ℝ :=
  List.zipWith (fun a p => metropolis_symmetric_acceptance a p logabs)
    amplitude proposed_amplitude

/-- Unfolding of the raw-amplitude (`logabs = false`) branch. -/
theorem metropolis_symmetric_acceptance_false_def (a p : ℝ) :
    metropolis_symmetric_acceptance a p false =
      if a ^ 2 < p ^ 2 ∨ a ^ 2 = 0 then 1 else p ^ 2 / a ^ 2 := rfl

/-- Unfolding of the log-amplitude (`logabs = true`) branch. -/
theorem metropolis_symmetric_acceptance_true_def (a b : ℝ) :
    metropolis_symmetric_acceptance a b true =
      if 2 * b > 2 * a then 1 else Real.exp (2 * b - 2 * a) := rfl

/-- Scalar helper: each acceptance value lies in `[0, 1]`. -/
theorem metropolis_symmetric_acceptance_unit (a p : ℝ) (l : Bool) :
    0 ≤ metropolis_symmetric_acceptance a p l ∧
      metropolis_symmetric_acceptance a p l ≤ 1 := by
  cases l with
  | false =>
    rw [metropolis_symmetric_acceptance_false_def]
    by_cases h : a ^ 2 < p ^ 2 ∨ a ^ 2 = 0
    · rw [if_pos h]
      exact ⟨zero_le_one, le_refl 1⟩
    · rw [if_neg h]
      rw [not_or] at h
      obtain ⟨hnlt, hne⟩ := h
      have hpos : 0 < a ^ 2 := lt_of_le_of_ne (sq_nonneg a) (Ne.symm hne)
      exact ⟨div_nonneg (sq_nonneg p) hpos.le,
        (div_le_one hpos).mpr (not_lt.mp hnlt)⟩
  | true =>
    rw [metropolis_symmetric_acceptance_true_def]
    by_cases h : 2 * p > 2 * a
    · rw [if_pos h]
      exact ⟨zero_le_one, le_refl 1⟩
    · rw [if_neg h]
      exact ⟨(Real.exp_pos _).le, Real.exp_le_one_iff.mpr (by linarith [not_lt.mp h])⟩

/-- Squaring an exponential doubles the log. -/
theorem exp_sq_eq (t : ℝ) : Real.exp t ^ 2 = Real.exp (2 * t) := by
  rw [sq, ← Real.exp_add, two_mul]

/-- Helper shared by the cross-representation claims: feeding raw
amplitudes `exp a`, `exp b` to the raw branch gives exactly the same
result as feeding `a`, `b` to the log branch. -/
theorem metropolis_symmetric_acceptance_exp_eq (a b : ℝ) :
    metropolis_symmetric_acceptance (Real.exp a) (Real.exp b) false =
      metropolis_symmetric_acceptance a b true := by
  rw [metropolis_symmetric_acceptance_false_def,
    metropolis_symmetric_acceptance_true_def]
  have hne : Real.exp a ^ 2 ≠ 0 := by
    rw [exp_sq_eq]
    exact (Real.exp_pos _).ne.symm
  by_cases h : 2 * b > 2 * a
  · have hlt : Real.exp a ^ 2 < Real.exp b ^ 2 := by
      rw [exp_sq_eq, exp_sq_eq]
      exact Real.exp_lt_exp.mpr h
    rw [if_pos (Or.inl hlt), if_pos h]
  · have hnlt : ¬ (Real.exp a ^ 2 < Real.exp b ^ 2 ∨ Real.exp a ^ 2 = 0) := by
      rw [not_or]
      refine ⟨not_lt.mpr ?_, hne⟩
      rw [exp_sq_eq, exp_sq_eq]
      exact Real.exp_le_exp.mpr (not_lt.mp h)
    rw [if_neg hnlt, if_neg h, exp_sq_eq, exp_sq_eq, ← Real.exp_sub]

/-- C5: In the raw-amplitude branch (`logabs = false`), the result is `1`
whenever `probOld = amplitude^2` is `0` or `probNew = proposedAmplitude^2`
is at least `probOld`, and is `probNew / probOld` otherwise.  (On the
overlap `probNew = probOld ≠ 0` the code's strict-inequality `where`
selects the ratio, which equals `1` there, so both readings agree.) -/
theorem metropolis_symmetric_acceptance_raw_branch_spec (a p : ℝ) :
    metropolis_symmetric_acceptance a p false =
      if a ^ 2 = 0 ∨ p ^ 2 ≥ a ^ 2 then 1 else p ^ 2 / a ^ 2 := by
  rw [metropolis_symmetric_acceptance_false_def]
  rcases eq_or_ne (a ^ 2) 0 with h0 | h0
  · rw [if_pos (Or.inr h0), if_pos (Or.inl h0)]
  · rcases lt_trichotomy (a ^ 2) (p ^ 2) with hlt | heq | hgt
    · rw [if_pos (Or.inl hlt), if_pos (Or.inr hlt.le)]
    · rw [if_neg (not_or.mpr ⟨not_lt.mpr heq.ge, h0⟩),
        if_pos (Or.inr heq.le), ← heq, div_self h0]
    · rw [if_neg (not_or.mpr ⟨not_lt.mpr hgt.le, h0⟩),
        if_neg (not_or.mpr ⟨h0, not_le.mpr hgt⟩)]

/-- C2: every entry of the acceptance array lies in `[0, 1]`, under either
branch of `logabs` (finiteness is automatic in the exact-real model). -/
theorem metropolis_symmetric_acceptance_vec_unit
    (amps props : List ℝ) (l : Bool) :
    ∀ r ∈ metropolis_symmetric_acceptance_vec amps props l, 0 ≤ r ∧ r ≤ 1 := by
  induction amps generalizing props with
  | nil =>
    intro r hr
    simp [metropolis_symmetric_acceptance_vec] at hr
  | cons a as ih =>
    cases props with
    | nil =>
      intro r hr
      simp [metropolis_symmetric_acceptance_vec] at hr
    | cons p ps =>
      intro r hr
      rw [metropolis_symmetric_acceptance_vec, List.zipWith_cons_cons] at hr
      rcases List.mem_cons.mp hr with h | h
      · rw [h]
        exact metropolis_symmetric_acceptance_unit a p l
      · exact ih ps r h

/-- Witness for C2 at the concrete input `amps = [0]`, `props = [0]`,
`logabs = true`. -/
theorem metropolis_symmetric_acceptance_vec_unit_witness :
    0 ≤ metropolis_symmetric_acceptance 0 0 true ∧
      metropolis_symmetric_acceptance 0 0 true ≤ 1 := by
  refine metropolis_symmetric_acceptance_vec_unit [0] [0] true _ ?_
  show metropolis_symmetric_acceptance 0 0 true ∈
    [metropolis_symmetric_acceptance 0 0 true]
  exact List.mem_singleton.mpr rfl

/-- C3 counterexample: at `a = 1 ≥ b = 0` the log-branch acceptance is
`exp (-2) ≠ 1`, refuting the claim that it equals `1` whenever `a ≥ b`
(the acceptance is `1` when the proposed state is the more probable one,
i.e. when `b ≥ a`, not when `a ≥ b`). -/
theorem metropolis_symmetric_acceptance_ge_ne_one :
    metropolis_symmetric_acceptance 1 0 true ≠ 1 := by
  rw [metropolis_symmetric_acceptance_true_def, if_neg (by norm_num)]
  rw [Ne, Real.exp_eq_one_iff]
  norm_num

/-- C3 (amended): for finite reals `a ≤ b`, the raw-amplitude acceptance at
`(exp a, exp b)` agrees with the log-amplitude acceptance at `(a, b)`, and
both equal `1`. -/
theorem metropolis_symmetric_acceptance_le_agree_one (a b : ℝ) (h : a ≤ b) :
    metropolis_symmetric_acceptance (Real.exp a) (Real.exp b) false =
      metropolis_symmetric_acceptance a b true ∧
    metropolis_symmetric_acceptance a b true = 1 := by
  refine ⟨metropolis_symmetric_acceptance_exp_eq a b, ?_⟩
  rw [metropolis_symmetric_acceptance_true_def]
  rcases h.lt_or_eq with hlt | heq
  · rw [if_pos (by linarith)]
  · rw [heq, if_neg (lt_irrefl _), sub_self, Real.exp_zero]

/-- Witness for the amended C3 at `a = 0`, `b = 1`. -/
theorem metropolis_symmetric_acceptance_le_agree_one_witness :
    metropolis_symmetric_acceptance (Real.exp 0) (Real.exp 1) false =
      metropolis_symmetric_acceptance 0 1 true ∧
    metropolis_symmetric_acceptance 0 1 true = 1 :=
  metropolis_symmetric_acceptance_le_agree_one 0 1 (by norm_num)

/-- C4: for all finite reals `a, b`, the raw-amplitude representation at
`(exp a, exp b)` and the log-amplitude representation at `(a, b)` compute
exactly the same acceptance ratio. -/
theorem metropolis_symmetric_acceptance_exp_log_agree (a b : ℝ) :
    metropolis_symmetric_acceptance (Real.exp a) (Real.exp b) false =
      metropolis_symmetric_acceptance a b true :=
  metropolis_symmetric_acceptance_exp_eq a b

/-! ### `vmcnet/mcmc/metropolis.py`: the Metropolis step engine -/

/-- Embedding of `make_metropolis_step` / `metrop_step_fn`.

```python
def metrop_step_fn(data, params, key):
    key, subkey = jax.random.split(key)
    proposed_data, key = proposal_fn(params, data, key)
    accept_prob = acceptance_fn(params, data, proposed_data)
    move_mask = jax.random.uniform(subkey, shape=accept_prob.shape) < accept_prob
    new_data = update_data_fn(data, proposed_data, move_mask)
    return jnp.mean(accept_prob), new_data, key
```

The PRNG is abstracted: `split` models `jax.random.split` and
`uniform key n` models `jax.random.uniform(key, shape=(n,))`.  The scalar
type `α` is kept generic (the source is shape/dtype polymorphic). -/
def make_metropolis_step {P D K α : Type} [LinearOrderedField α]
    (split : K → K × K) (uniform : K → ℕ → List α)
    (proposal_fn : P → D → K → D × K)
    (acceptance_fn : P → D → D → List α)
    (update_data_fn : D → D → List Bool → D) :
    D → P → K → α × D × K :=
  fun data params key =>
    let keys := split key
    let subkey := keys.2
    let proposal_out := proposal_fn params data keys.1
    let proposed_data := proposal_out.1
    let accept_prob := acceptance_fn params data proposed_data
    let u := uniform subkey accept_prob.length
    let move_mask := List.zipWith (fun ui pi => decide (ui < pi)) u accept_prob
    let new_data := update_data_fn data proposed_data move_mask
    (list_mean accept_prob, new_data, proposal_out.2)

/-- The mean of a nonempty list whose entries lie in `[0, 1]` lies in
`[0, 1]`. -/
theorem list_mean_mem_unit {α : Type} [LinearOrderedField α] (l : List α)
    (hne : l ≠ []) (h : ∀ r ∈ l, 0 ≤ r ∧ r ≤ 1) :
    0 ≤ list_mean l ∧ list_mean l ≤ 1 := by
  have hlen : 0 < (l.length : α) := by
    have hp : 0 < l.length := List.length_pos.mpr hne
    exact_mod_cast hp
  have hsum0 : 0 ≤ l.sum := List.sum_nonneg fun x hx => (h x hx).1
  have hsum1 : l.sum ≤ (l.length : α) := by
    calc l.sum ≤ l.length • (1 : α) :=
          List.sum_le_card_nsmul l 1 fun x hx => (h x hx).2
    _ = (l.length : α) := by simp
  exact ⟨div_nonneg hsum0 hlen.le, (div_le_one hlen).mpr hsum1⟩

/-- C9: the first component returned by the step function built by
`make_metropolis_step` is the mean of the exact acceptance-probability
array that was compared against the uniform draws, and when that array is
nonempty with entries in `[0, 1]` the reported mean is itself in `[0, 1]`. -/
theorem metrop_step_fn_mean_acceptance {P D K α : Type} [LinearOrderedField α]
    (split : K → K × K) (uniform : K → ℕ → List α)
    (proposal_fn : P → D → K → D × K)
    (acceptance_fn : P → D → D → List α)
    (update_data_fn : D → D → List Bool → D)
    (data : D) (params : P) (key : K)
    (h01 : ∀ r ∈ acceptance_fn params data (proposal_fn params data (split key).1).1,
      0 ≤ r ∧ r ≤ 1)
    (hne : acceptance_fn params data (proposal_fn params data (split key).1).1 ≠ []) :
    (make_metropolis_step split uniform proposal_fn acceptance_fn update_data_fn
        data params key).1 =
      list_mean (acceptance_fn params data (proposal_fn params data (split key).1).1) ∧
    0 ≤ (make_metropolis_step split uniform proposal_fn acceptance_fn update_data_fn
        data params key).1 ∧
    (make_metropolis_step split uniform proposal_fn acceptance_fn update_data_fn
        data params key).1 ≤ 1 := by
  refine ⟨rfl, ?_⟩
  show 0 ≤ list_mean (acceptance_fn params data (proposal_fn params data (split key).1).1) ∧
    list_mean (acceptance_fn params data (proposal_fn params data (split key).1).1) ≤ 1
  exact list_mean_mem_unit _ hne h01

/-- Witness for C9: a concrete single-chain instantiation with acceptance
probability `1/2` over trivial data/params/key types. -/
theorem metrop_step_fn_mean_acceptance_witness :
    (make_metropolis_step (fun _ : Unit => ((), ()))
        (fun _ n => List.replicate n (0 : ℚ))
        (fun _ _ _ => ((), ()))
        (fun _ _ _ => [(1 : ℚ) / 2])
        (fun _ _ _ => ())
        () () ()).1 = list_mean [(1 : ℚ) / 2] ∧
    0 ≤ (make_metropolis_step (fun _ : Unit => ((), ()))
        (fun _ n => List.replicate n (0 : ℚ))
        (fun _ _ _ => ((), ()))
        (fun _ _ _ => [(1 : ℚ) / 2])
        (fun _ _ _ => ())
        () () ()).1 ∧
    (make_metropolis_step (fun _ : Unit => ((), ()))
        (fun _ n => List.replicate n (0 : ℚ))
        (fun _ _ _ => ((), ()))
        (fun _ _ _ => [(1 : ℚ) / 2])
        (fun _ _ _ => ())
        () () ()).1 ≤ 1 :=
  metrop_step_fn_mean_acceptance (fun _ : Unit => ((), ()))
    (fun _ n => List.replicate n (0 : ℚ))
    (fun _ _ _ => ((), ()))
    (fun _ _ _ => [(1 : ℚ) / 2])
    (fun _ _ _ => ())
    () () () (by norm_num) (by simp)

/-! ### Position/amplitude specialization -/

/-- Modelled from the spec: `PositionAmplitudeData` is imported from
`vmcnet/updates/data.py`, which is outside the analysed sources; the spec's
`WalkerState` describes it as a per-chain position array of shape
`(numChains, ...configDims)` together with a per-chain amplitude array of
shape `(numChains,)`. -/
structure PositionAmplitudeData where
  position : List (List ℝ)
  amplitude : List ℝ

/-- Embedding of `make_position_amplitude_metropolis_symmetric_acceptance`:
the returned `acceptance_fn` deletes `params` and applies
`metropolis_symmetric_acceptance` to the two amplitude fields.

```python
def acceptance_fn(params, data, proposed_data):
    del params
    return metropolis_symmetric_acceptance(
        data.amplitude, proposed_data.amplitude, logabs=logabs)
``` -/
noncomputable def make_position_amplitude_metropolis_symmetric_acceptance
    {P : Type} (logabs : Bool) :
    P → PositionAmplitudeData → PositionAmplitudeData → List ℝ :=
  fun _params data proposed_data =>
    metropolis_symmetric_acceptance_vec data.amplitude proposed_data.amplitude
      logabs

/-- C10: the acceptance function produced by
`make_position_amplitude_metropolis_symmetric_acceptance` depends only on
the amplitude fields: two invocations agreeing on `data.amplitude` and
`proposed_data.amplitude` give equal outputs, whatever the params (even of
different types) and the position fields. -/
theorem acceptance_fn_ignores_params_and_position
    {P₁ P₂ : Type} (logabs : Bool) (params₁ : P₁) (params₂ : P₂)
    (data₁ data₂ proposed₁ proposed₂ : PositionAmplitudeData)
    (hdata : data₁.amplitude = data₂.amplitude)
    (hprop : proposed₁.amplitude = proposed₂.amplitude) :
    make_position_amplitude_metropolis_symmetric_acceptance logabs params₁
        data₁ proposed₁ =
      make_position_amplitude_metropolis_symmetric_acceptance logabs params₂
        data₂ proposed₂ := by
  unfold make_position_amplitude_metropolis_symmetric_acceptance
  rw [hdata, hprop]

/-- Witness for C10: concrete states differing in positions and params but
sharing amplitudes. -/
theorem acceptance_fn_ignores_params_and_position_witness :
    make_position_amplitude_metropolis_symmetric_acceptance true (0 : ℕ)
        ⟨[[0]], [1]⟩ ⟨[[2]], [3]⟩ =
      make_position_amplitude_metropolis_symmetric_acceptance true (5 : ℕ)
        ⟨[[7]], [1]⟩ ⟨[[9]], [3]⟩ :=
  acceptance_fn_ignores_params_and_position true 0 5 _ _ _ _ rfl rfl

/-! ### `vmcnet/physics/energy.py`: energy/variance estimator -/

/-- A floating value that is either finite (an exact rational) or the
collapsed class of IEEE non-finite outcomes (`inf`/`-inf`/`nan`), which a
division by zero produces. -/
inductive FReal where
  | fin : ℚ → FReal
  | nan : FReal
  deriving DecidableEq

/-- The spec's two expected failure classes for the energy estimator. -/
inductive EnergyError where
  | invalidConfiguration
  | shapeMismatch
  deriving DecidableEq

/-- Division of a floating value by an integer under IEEE semantics: a zero
denominator yields a non-finite result (modelled as `FReal.nan`). -/
def fdivZ : FReal → ℤ → FReal
  | FReal.fin q, d => if d = 0 then FReal.nan else FReal.fin (q / (d : ℚ))
  | FReal.nan, _ => FReal.nan

/-- Modelled from the spec: `utils.distribute.pmean_if_pmap` lives in
`vmcnet/utils/distribute.py`, outside the analysed sources; the spec states
the cross-worker mean "must behave as identity when only one worker is
present", and all claims about it are single-worker. -/
def pmean_if_pmap (x : ℚ) : ℚ := x

/-- Embedding of `compute_energy_data` (the forward pass inside
`create_value_and_grad_energy_fn`), single worker.  `local_energy_fn` has
already been applied, so the function takes the resulting per-chain local
energies.  The `Except` result type records the error channel the spec
assigns to this component; the Python body contains no raise or
validation, so every path returns `ok`.

```python
local_energies = local_energy_fn(params, positions)
energy = utils.distribute.pmean_if_pmap(jnp.mean(local_energies))
variance = (utils.distribute.pmean_if_pmap(
    jnp.mean(jnp.square(local_energies - energy))) * nchains / (nchains - 1))
aux_data = (variance, local_energies)
return energy, aux_data
```

The auxiliary copy of `local_energies` is the caller's input and is left
out of the returned pair. -/
def compute_energy_data (nchains : ℤ) (local_energies : List ℚ) :
    Except EnergyError (ℚ × FReal) :=
  let energy := pmean_if_pmap (list_mean local_energies)
  let variance :=
    fdivZ
      (FReal.fin
        (pmean_if_pmap (list_mean (local_energies.map fun e => (e - energy) ^ 2))
          * (nchains : ℚ)))
      (nchains - 1)
  Except.ok (energy, variance)

/-- C1 counterexample: at `nchains = 1` with local energies `[5]`,
`compute_energy_data` does not raise `InvalidConfiguration`: it returns a
result, whose variance is the non-finite outcome of the zero Bessel
denominator. -/
theorem compute_energy_data_one_chain_no_error :
    compute_energy_data 1 [(5 : ℚ)] ≠ Except.error EnergyError.invalidConfiguration ∧
    compute_energy_data 1 [(5 : ℚ)] = Except.ok ((5 : ℚ), FReal.nan) := by
  have h2 : compute_energy_data 1 [(5 : ℚ)] = Except.ok ((5 : ℚ), FReal.nan) := by
    unfold compute_energy_data
    norm_num [list_mean, pmean_if_pmap, fdivZ]
  refine ⟨?_, h2⟩
  rw [h2]
  simp

/-- C1 (amended): `compute_energy_data` performs no `nchains` validation and
never fails fast: at `nchains = 1` it returns the single local energy as
the energy together with a non-finite (NaN) variance, the `0 * 1/0` of the
zero Bessel denominator, rather than raising `InvalidConfiguration`. -/
theorem compute_energy_data_one_chain_nan_variance (e : ℚ) :
    compute_energy_data 1 [e] = Except.ok (e, FReal.nan) := by
  unfold compute_energy_data
  norm_num [list_mean, pmean_if_pmap, fdivZ]

/-- C6: with a single worker, local energies `[1, 2, 3, 4]` and
`nchains = 4`, the forward pass returns `energy = 5/2` and the
Bessel-corrected variance `(5/4) * 4/3 = 5/3`. -/
theorem compute_energy_data_example_values :
    compute_energy_data 4 [1, 2, 3, 4] =
      Except.ok ((5 / 2 : ℚ), FReal.fin (5 / 3)) := by
  unfold compute_energy_data
  norm_num [list_mean, pmean_if_pmap, fdivZ]

/-- Embedding of the parameter-tangent produced by
`compute_energy_data_jvp`, the custom differentiation rule:

```python
_, psi_tangents = jax.jvp(log_psi_apply, primals, tangents)
tangents_out = (2.0 * jnp.dot(psi_tangents, local_energies - energy), aux_data)
```

`psi_tangents` (the directional derivative of `log_psi_apply` along the
input tangents, one entry per chain) is taken as an argument, and `energy`
is recomputed exactly as in `compute_energy_data`. -/
def compute_energy_data_jvp_tangent (local_energies psi_tangents : List ℚ) : ℚ :=
  let energy := pmean_if_pmap (list_mean local_energies)
  2 * list_dot psi_tangents (local_energies.map fun e => e - energy)

/-- Mean of a constant nonempty list. -/
theorem list_mean_replicate (k : ℕ) (hk : k ≠ 0) (q : ℚ) :
    list_mean (List.replicate k q) = q := by
  rw [list_mean, List.sum_replicate, List.length_replicate, nsmul_eq_mul]
  exact mul_div_cancel_left₀ q (Nat.cast_ne_zero.mpr hk)

/-- Dotting anything against an all-zero vector gives zero. -/
theorem list_dot_replicate_zero (ts : List ℚ) (k : ℕ) :
    list_dot ts (List.replicate k (0 : ℚ)) = 0 := by
  induction ts generalizing k with
  | nil => simp [list_dot]
  | cons a as ih =>
    cases k with
    | zero => simp [list_dot]
    | succ j =>
      rw [list_dot, List.replicate_succ, List.zipWith_cons_cons, List.sum_cons,
        mul_zero, zero_add]
      exact ih j

/-- C7: if the local energies are the same constant `E0` on every one of
the `k` chains, the tangent produced by the custom differentiation rule is
exactly zero, for every vector of `psi` tangents: `localEnergies - energy`
is identically zero. -/
theorem compute_energy_data_jvp_constant_zero (k : ℕ) (E0 : ℚ) (ts : List ℚ) :
    compute_energy_data_jvp_tangent (List.replicate k E0) ts = 0 := by
  cases k with
  | zero => simp [compute_energy_data_jvp_tangent, list_dot, list_mean]
  | succ j =>
    simp only [compute_energy_data_jvp_tangent, pmean_if_pmap]
    rw [list_mean_replicate _ (Nat.succ_ne_zero j), List.map_replicate, sub_self,
      list_dot_replicate_zero, mul_zero]

/-! ### `vmcnet/physics/energy.py`: Laplacian-over-psi -/

/-- Row `i` of `jnp.eye(n)`: the `i`-th standard basis vector of length
`n`. -/
def std_basis (n i : ℕ) : List ℚ :=
  (List.range n).map fun j => if j = i then 1 else 0

/-- Embedding of `laplacian_psi_over_psi`.  The function works on the
flattened configuration `flat_x` (for a flat `x` the reshapes in the
source are identities).  `jax.jvp` is modelled by an explicit
directional-derivative oracle `jvp_grad_log_psi`, so that
`jvp_grad_log_psi v t` is the derivative of `grad_log_psi` at `v` along
`t`; a claim instantiates it with the exact derivative of its
`grad_log_psi`.  The `jax.lax.scan` of length `n` with carry
`(i, accumulator)` is the fold over `i = 0, ..., n-1` of

```python
primals, tangents = jax.jvp(flattened_grad_log_psi_of_flat_x,
                            (flat_x,), (identity_mat[i],))
carry = carry + jnp.square(primals[i]) + tangents[i]
``` -/
def laplacian_psi_over_psi
    (grad_log_psi : List ℚ → List ℚ)
    (jvp_grad_log_psi : List ℚ → List ℚ → List ℚ)
    (flat_x : List ℚ) : ℚ :=
  let n := flat_x.length
  (List.range n).foldl
    (fun acc i =>
      acc + ((grad_log_psi flat_x).getD i 0) ^ 2
        + ((jvp_grad_log_psi flat_x (std_basis n i)).getD i 0))
    0

/-- Left fold of repeated addition is the initial value plus the sum of
the per-element terms. -/
theorem foldl_add_eq_sum (f : ℕ → ℚ) (l : List ℕ) (c : ℚ) :
    l.foldl (fun acc i => acc + f i) c = c + (l.map f).sum := by
  induction l generalizing c with
  | nil => simp
  | cons a as ih =>
    rw [List.foldl_cons, ih, List.map_cons, List.sum_cons, add_assoc]

/-- `getD` through `map`, in range. -/
theorem list_getD_map {α β : Type} (f : α → β) (x : List α) (i : ℕ)
    (dα : α) (dβ : β) (h : i < x.length) :
    (x.map f).getD i dβ = f (x.getD i dα) := by
  rw [List.getD_eq_getElem?_getD, List.getD_eq_getElem?_getD, List.getElem?_map,
    List.getElem?_eq_getElem h]
  rfl

/-- The `i`-th entry of the `i`-th standard basis vector is `1`. -/
theorem std_basis_getD (n i : ℕ) (h : i < n) : (std_basis n i).getD i 0 = 1 := by
  rw [std_basis,
    list_getD_map _ _ _ 0 _ (by rw [List.length_range]; exact h)]
  have hr : (List.range n).getD i 0 = i := by
    rw [List.getD_eq_getElem?_getD,
      List.getElem?_eq_getElem (by rw [List.length_range]; exact h)]
    simp
  rw [hr, if_pos rfl]

/-- Sums of elementwise-added maps split. -/
theorem list_sum_map_add (l : List ℕ) (f g : ℕ → ℚ) :
    (l.map fun i => f i + g i).sum = (l.map f).sum + (l.map g).sum := by
  induction l with
  | nil => simp
  | cons a as ih =>
    simp only [List.map_cons, List.sum_cons, ih]
    ring

/-- Summing the squares of `getD` over the index range is summing the
squares over the list. -/
theorem list_sum_range_getD_sq (x : List ℚ) :
    ((List.range x.length).map fun i => (x.getD i 0) ^ 2).sum
      = (x.map fun t => t ^ 2).sum := by
  induction x with
  | nil => simp
  | cons a as ih =>
    rw [List.length_cons, List.range_succ_eq_map, List.map_cons, List.sum_cons,
      List.map_map, List.map_cons, List.sum_cons]
    have hcomp :
        ((fun i => ((a :: as).getD i 0) ^ 2) ∘ Nat.succ)
          = fun i => (as.getD i 0) ^ 2 := by
      funext i
      simp [List.getD_cons_succ]
    rw [hcomp, ih, List.getD_cons_zero]

/-- C8: with `gradLogPsi(params, x) = -x` (the Gaussian
`psi(x) = exp(-|x|^2 / 2)`), whose directional derivative along `t` is
`-t`, `laplacian_psi_over_psi` returns exactly `|x|^2 - n` where `n` is
the number of scalar components of `x`. -/
theorem laplacian_psi_over_psi_gaussian (x : List ℚ) :
    laplacian_psi_over_psi (fun v => v.map fun t => -t)
        (fun _ t => t.map fun s => -s) x =
      (x.map fun t => t ^ 2).sum - (x.length : ℚ) := by
  simp only [laplacian_psi_over_psi]
  have hbody :
      (fun (acc : ℚ) (i : ℕ) =>
        acc + ((x.map fun t => -t).getD i 0) ^ 2
          + (((std_basis x.length i).map fun s => -s).getD i 0))
      = fun (acc : ℚ) (i : ℕ) =>
        acc + (((x.map fun t => -t).getD i 0) ^ 2
          + (((std_basis x.length i).map fun s => -s).getD i 0)) := by
    funext acc i
    ring
  rw [hbody, foldl_add_eq_sum, zero_add]
  have hterm : ∀ i ∈ List.range x.length,
      ((x.map fun t => -t).getD i 0) ^ 2
        + (((std_basis x.length i).map fun s => -s).getD i 0)
      = (fun i => (x.getD i 0) ^ 2 + (-1 : ℚ)) i := by
    intro i hi
    have hix : i < x.length := List.mem_range.mp hi
    have hib : i < (std_basis x.length i).length := by
      rw [std_basis, List.length_map, List.length_range]
      exact hix
    rw [list_getD_map _ _ _ 0 _ hix, list_getD_map _ _ _ 0 _ hib,
      std_basis_getD _ _ hix, neg_sq]
  rw [List.map_congr_left hterm, list_sum_map_add, list_sum_range_getD_sq]
  have hconst : ((List.range x.length).map fun _ => (-1 : ℚ)).sum
      = -(x.length : ℚ) := by
    rw [List.map_const', List.sum_replicate, List.length_range, nsmul_eq_mul]
    ring
  rw [hconst]
  ring

end Vmcnet
